import Mathlib

/-!
# Verification of `make-self-extracting-bin` (CLI entry point)

A shallow embedding of the CLI of `make-self-extracting-bin`, a tool that
packages files into a self-extracting shell script.  The whole repository
source is one TypeScript file (the CLI entry point `shelf.ts`); it parses
options, validates them, resolves each input path to an archive entry,
rejects duplicate entry names, and hands the result to the external
`makeSelfExtractingScript` library.

The embedding models:
* the relevant parts of Node's `path.posix` module (`resolve`, `relative`,
  `parse(..).base`, `parse(..).ext`) over segment lists;
* the parsed command-line options (`OptionsType` in the source);
* the filesystem as an abstract read function plus a current directory;
* the whole run of the tool as a pure function `run : FS → Options →
  RunOutcome`, following the source line by line (help branch, the four
  hand-cranked validations, the two script-file reads, entry resolution,
  the duplicate-entry check, opening the output sink and calling the
  assembler).

Machine integers do not occur (all counts are small `Nat`s; the JS
`Number` for `--compress-level` is modelled by `JSNum` below).
-/

/-! ## Node `path.posix` model

Paths are handled at the level of their non-empty `/`-separated segments,
which is exactly what Node's `normalizeString` does internally.  Splitting
is implemented by structural recursion over the character list so that all
definitions evaluate by kernel reduction.
-/

/-- Split a character list on `/`, discarding empty segments.  `cur` holds
the (reversed) characters of the segment currently being read. -/
def splitPathAux : List Char → List Char → List String
  | [], cur => if cur.isEmpty then [] else [String.mk cur.reverse]
  | c :: rest, cur =>
    if c = '/' then
      (if cur.isEmpty then [] else [String.mk cur.reverse]) ++ splitPathAux rest []
    else
      splitPathAux rest (c :: cur)

/-- The non-empty `/`-separated segments of a POSIX path: `"a//b/"` gives
`["a", "b"]`.  Equals Node's split-and-drop-empty-parts step. -/
def splitPath (p : String) : List String :=
  splitPathAux p.data []

/-- Whether a POSIX path is absolute, i.e. starts with `/`
(`path.isAbsolute` / the `startsWith('/')` test inside `path.resolve`). -/
def isAbs (p : String) : Bool :=
  match p.data with
  | '/' :: _ => true
  | _ => false

/-- One step of Node's `normalizeString`: `.` is dropped, `..` pops the
last segment (and is dropped at the root, as in absolute-path
normalization), anything else is appended. -/
def normStep (acc : List String) (seg : String) : List String :=
  if seg = "." then acc
  else if seg = ".." then acc.dropLast
  else acc ++ [seg]

/-- Normalize the segment list of an absolute path (Node `normalizeString`
with `allowAboveRoot = false`). -/
def normAbs (segs : List String) : List String :=
  segs.foldl normStep []

/-- The segments of `path.resolve(p)` evaluated with current directory
`cwd`: an absolute `p` is normalized on its own, a relative `p` is
appended to the current directory first. -/
def resolveSegs (cwd p : String) : List String :=
  if isAbs p then normAbs (splitPathAux p.data [])
  else normAbs (splitPathAux cwd.data [] ++ splitPathAux p.data [])

/-- Join segments with `/` (Node joins normalized segments the same way;
this is `String.intercalate "/"` written by structural recursion). -/
def joinSegs : List String → String
  | [] => ""
  | [s] => s
  | s :: rest => s ++ "/" ++ joinSegs rest

/-- `path.resolve(p)` with current directory `cwd`: always an absolute,
normalized path. -/
def pathResolve (cwd p : String) : String :=
  "/" ++ joinSegs (resolveSegs cwd p)

/-- Length of the common leading run of two segment lists. -/
def commonLen : List String → List String → Nat
  | a :: as, b :: bs => if a = b then commonLen as bs + 1 else 0
  | _, _ => 0

/-- The segments of `path.relative(f, t)`: drop the common prefix of the
two resolved paths, then one `..` per remaining segment of `f` followed by
the remaining segments of `t`. -/
def relSegs (f t : List String) : List String :=
  List.replicate (f.length - commonLen f t) ".." ++ t.drop (commonLen f t)

/-- `path.relative(f, t)` with current directory `cwd`: both arguments are
resolved first (Node resolves them internally), then compared segment-wise.
Equal paths give the empty string. -/
def pathRelative (cwd f t : String) : String :=
  joinSegs (relSegs (resolveSegs cwd f) (resolveSegs cwd t))

/-- Index of the last `.` in a character list, if any. -/
def lastDotIdx : List Char → Option Nat
  | [] => none
  | c :: cs =>
    match lastDotIdx cs with
    | some i => some (i + 1)
    | none => if c = '.' then some 0 else none

/-- `path.parse(p).base`: the last non-empty segment (trailing slashes are
ignored, `path.parse('/').base` is the empty string). -/
def baseOf (p : String) : String :=
  (splitPathAux p.data []).getLastD ""

/-- The extension of a basename, following Node's `path.parse` exactly:
empty when there is no dot, when the only/last dot is the first character
(`.bashrc`), or when the basename is exactly `..`; otherwise the suffix
from the last dot (`a.tar.gz` gives `.gz`, `a.` gives `.`). -/
def extOfBase (b : String) : String :=
  match lastDotIdx b.data with
  | none => ""
  | some 0 => ""
  | some i => if b = ".." then "" else String.mk (b.data.drop i)

/-- `path.parse(p).ext`. -/
def extname (p : String) : String :=
  extOfBase (baseOf p)

/-! ## The CLI data model -/

/-- A parsed JavaScript `Number` as produced for `--compress-level`:
either an exact integer, or any non-integral value (`NaN` from a
non-numeric argument, or a fractional value such as `3.5`).  The source
only ever compares it with `===` against the integers 0..9, and no
non-integral value is `===`-equal to an integer, so this two-case model is
faithful at every use site. -/
inductive JSNum where
  | int (n : Int)
  | nonInt
deriving DecidableEq

/-- JavaScript `===` between a member of `validCompressLevels` (always an
integer) and the parsed value. -/
def jsNumEq : JSNum → JSNum → Bool
  | .int a, .int b => a == b
  | _, _ => false

/-- The parsed command-line options (`OptionsType` in the source).
`type` has `defaultValue: 'tar'` applied by the parser; `files` has
`defaultValue: []`; everything else is absent-able. -/
structure Options where
  type : String
  compressLevel : Option JSNum
  preExtract : Option String
  postExtract : Option String
  preExtractFile : Option String
  postExtractFile : Option String
  omitHeader : Option Bool
  files : List String
  root : Option String
  output : Option String
  help : Bool

/-- The `defaultValue: 'tar'` of the `type` option definition: the archive
type used when `--type` is not given on the command line. -/
def applyTypeDefault (t : Option String) : String :=
  t.getD "tar"

/-- The filesystem as seen by the tool: a current working directory and a
read function (`none` models a read failure such as a missing or
unreadable file). -/
structure FS where
  cwd : String
  readFile : String → Option String

/-- One resolved archive entry (the object literal built inside
`options.files.map`). -/
structure Entry where
  filename : String
  path : String
  mode : Nat
deriving DecidableEq

/-- The first argument passed to the external `makeSelfExtractingScript`. -/
structure ScriptConfig where
  archiveFormat : String
  compressionLevel : Option JSNum
  omitLibraryHeader : Option Bool
  preExtraction : Option String
  postExtraction : Option String
deriving DecidableEq

/-- Outcome of one invocation of the tool.

* `help`: the help branch ran (`process.exit(0)`).
* `fail errors sinkOpened`: `process.exit(1)` after printing `errors` to
  stderr; `sinkOpened` records whether a named output file had already
  been opened (and hence created/truncated) by `fs.createWriteStream`.
* `ok cfg entries output`: `makeSelfExtractingScript` succeeded with
  configuration `cfg` and entry list `entries`, writing to `output`
  (`none` = standard out). -/
inductive RunOutcome where
  | help
  | fail (errors : List String) (sinkOpened : Bool)
  | ok (cfg : ScriptConfig) (entries : List Entry) (output : Option String)
deriving DecidableEq

/-- The process exit status of an outcome. -/
def RunOutcome.exitCode : RunOutcome → Nat
  | .help => 0
  | .fail _ _ => 1
  | .ok _ _ _ => 0

/-- Whether a named output file was opened (created or truncated) during
the run. -/
def RunOutcome.sinkOpened : RunOutcome → Bool
  | .help => false
  | .fail _ b => b
  | .ok _ _ out => out.isSome

/-! ## The pipeline -/

/-- The post-extraction-script validation, verbatim from the source:
`options['post-extract'] === undefined ||
 (options['post-extract'].length === 0 &&
  options['post-extract-file'] === undefined)`. -/
def postExtractMissing (o : Options) : Bool :=
  match o.postExtract with
  | none => true
  | some s => s.length == 0 && o.postExtractFile.isNone

/-- Resolution of a pre/post-extraction script from an optional script
file and optional inline text: when a file is given it is read (a failed
read is a fatal error naming the file; the source message wraps the file
name in single quotes, elided here) and its content replaces the inline
text. -/
def resolveScript (fs : FS) (label : String) (fileOpt inl : Option String) :
    Except String (Option String) :=
  match fileOpt with
  | none => .ok inl
  | some f =>
    match fs.readFile f with
    | some content => .ok (some content)
    | none => .error ("Failed to read " ++ label ++ " script " ++ f)

/-- `validCompressLevels` from the source. -/
def validCompressLevels : List JSNum :=
  [.int 0, .int 1, .int 2, .int 3, .int 4, .int 5, .int 6, .int 7, .int 8, .int 9]

/-- `validateCompressLevel` as a predicate: `true` when the check passes
(absent, or `===`-equal to one of 0..9). -/
def validCompress : Option JSNum → Bool
  | none => true
  | some v => validCompressLevels.any (fun p => jsNumEq p v)

/-- One entry of the `options.files.map` in the source: mode 0o755 for a
`.sh` extension and 0o644 otherwise, entry name relative to the resolved
root (or the bare basename), source path resolved to an absolute path. -/
def mkEntry (cwd : String) (resolvedRoot : Option String) (p : String) : Entry :=
  { filename :=
      match resolvedRoot with
      | some r => pathRelative cwd r p
      | none => baseOf p
    path := pathResolve cwd p
    mode := if extname p = ".sh" then 0o755 else 0o644 }

/-- The full resolved entry list of a request. -/
def entriesOf (cwd : String) (o : Options) : List Entry :=
  o.files.map (mkEntry cwd (o.root.map (pathResolve cwd)))

/-- Insertion into the `entryCount` map (`Map<string, string[]>`),
appending the path to the existing key or adding a new key at the end
(JS `Map` iteration order is insertion order). -/
def insertEntry (m : List (String × List String)) (k v : String) :
    List (String × List String) :=
  match m with
  | [] => [(k, [v])]
  | (k', vs) :: rest =>
    if k' = k then (k', vs ++ [v]) :: rest else (k', vs) :: insertEntry rest k v

/-- The `entryCount` map: entry name to the list of source paths that
produced it. -/
def entryCount (es : List Entry) : List (String × List String) :=
  es.foldl (fun m e => insertEntry m e.filename e.path) []

/-- The per-collision error lines of the duplicate report: a header naming
the entry and its multiplicity, then one `  From <path>` line per source
path.  Entries with exactly one source are skipped, exactly as in the
source's loop. -/
def dupErrors : List (String × List String) → List String
  | [] => []
  | (k, vs) :: rest =>
    (if vs.length ≠ 1 then
      ("Archive would contain path " ++ k ++ " " ++ toString vs.length ++ " times")
        :: vs.map (fun s => "  From " ++ s)
    else []) ++ dupErrors rest

/-- Modelled from the spec: the external `makeSelfExtractingScript`
(package `make-self-extracting`, not part of this repository) reads each
entry's `path` lazily and "any read or encode error aborts the whole
operation".  We model its success condition as every entry's source path
being readable; the `try`/`catch` around the call turns a failure into
`process.exit(1)` with no message. -/
def assembleOk (fs : FS) (es : List Entry) : Bool :=
  es.all (fun e => (fs.readFile e.path).isSome)

/-- The tail of the run once both scripts are resolved (the source from
the `const files = options.files.map(...)` line on): entry resolution, the
duplicate-entry check, then `fs.createWriteStream` on the named output
(this is the point at which a named output file is created/truncated) and
the call to `makeSelfExtractingScript`. -/
def runResolved (fs : FS) (o : Options) (pre post : Option String) : RunOutcome :=
  if (entryCount (entriesOf fs.cwd o)).length != (entriesOf fs.cwd o).length then
    .fail ("Archive contains duplicate files"
            :: dupErrors (entryCount (entriesOf fs.cwd o))) false
  else if assembleOk fs (entriesOf fs.cwd o) then
    .ok { archiveFormat := o.type
          compressionLevel := o.compressLevel
          omitLibraryHeader := o.omitHeader
          preExtraction := pre
          postExtraction := post }
      (entriesOf fs.cwd o) o.output
  else .fail [] o.output.isSome

/-- The whole run of the tool, following the source top to bottom:
help branch; the four validations in source order (empty file list,
missing post-extraction script, archive type, compression level); the two
script-file reads (pre first); then the resolved tail `runResolved`
(entry resolution, duplicate check, output sink and assembly). -/
def run (fs : FS) (o : Options) : RunOutcome :=
  if o.help then .help
  else if o.files.length == 0 then .fail ["No files to embed specified"] false
  else if postExtractMissing o then .fail ["No post extraction script specified"] false
  else if !(o.type == "tar" || o.type == "zip") then
    .fail ["Invalid archive type. Values tar or zip allowed"] false
  else if !(validCompress o.compressLevel) then
    .fail ["Invalid compression level. Values 0-9 allowed"] false
  else
    match resolveScript fs "pre-extraction" o.preExtractFile o.preExtract with
    | .error m => .fail [m] false
    | .ok pre =>
      match resolveScript fs "post-extraction" o.postExtractFile o.postExtract with
      | .error m => .fail [m] false
      | .ok post => runResolved fs o pre post

/-! Sanity checks of the path model against Node `path.posix`. -/

example : pathResolve "/work" "a.txt" = "/work/a.txt" := by decide
example : pathResolve "/work" "/etc//passwd/" = "/etc/passwd" := by decide
example : pathResolve "/work" "../x/./y" = "/x/y" := by decide
example : pathRelative "/w" "/a/b" "/a/c/d" = "../c/d" := by decide
example : pathRelative "/w" "/a/b" "/a/b" = "" := by decide
example : pathRelative "/w" "/a" "/a/b" = "b" := by decide
example : baseOf "dir/sub/file.txt" = "file.txt" := by decide
example : baseOf "dir/" = "dir" := by decide
example : extname "a.sh" = ".sh" := by decide
example : extname "a.tar.gz" = ".gz" := by decide
example : extname ".bashrc" = "" := by decide
example : extname "noext" = "" := by decide
example : extname "x.SH" = ".SH" := by decide
example : extname "d/.." = "" := by decide
example : extname "a." = "." := by decide

/-! ## Concrete fixtures -/

/-- An invocation with every option absent (parser defaults applied). -/
def noOpts : Options :=
  { type := applyTypeDefault none, compressLevel := none, preExtract := none
    postExtract := none, preExtractFile := none, postExtractFile := none
    omitHeader := none, files := [], root := none, output := none, help := false }

/-- Invocation supplying only a readable post-extraction script file. -/
def oFileOnly : Options :=
  { noOpts with files := ["README.md"], postExtractFile := some "setup.sh" }

/-- Filesystem on which `setup.sh` is readable. -/
def fsFileOnly : FS :=
  { cwd := "/home/user"
    readFile := fun p => if p = "setup.sh" then some "echo hi" else none }

/-- Valid invocation with a named output whose input file is unreadable. -/
def oBadRead : Options :=
  { noOpts with files := ["data.bin"], postExtract := some "echo done"
                output := some "out.sh" }

/-- Filesystem on which every read fails. -/
def fsNoRead : FS := { cwd := "/w", readFile := fun _ => none }

/-- C1: evaluation of the pipeline at the failing input.  An invocation
that supplies only a readable `--post-extract-file` (no inline
`--post-extract` text) is rejected by the post-extraction validation with
the message `No post extraction script specified`, although a
post-extraction script file was specified and is readable.  The check
`options['post-extract'] === undefined || (options['post-extract'].length
=== 0 && options['post-extract-file'] === undefined)` fails whenever the
inline text is absent, even when a script file is given — while the same
check deliberately accepts *empty* inline text plus a file, and the
option's own help text says the file "Overrides --post-extract". -/
theorem postExtractFile_alone_rejected :
    oFileOnly.postExtract = none ∧
    oFileOnly.postExtractFile = some "setup.sh" ∧
    fsFileOnly.readFile "setup.sh" = some "echo hi" ∧
    run fsFileOnly oFileOnly = .fail ["No post extraction script specified"] false ∧
    (run fsFileOnly oFileOnly).exitCode = 1 := by
  decide

/-- C2, counterexample: a fully valid configuration with a named
`--output` file whose input file is unreadable fails during archive
assembly, *after* `fs.createWriteStream(options.output)` has already
created/truncated the named output file: there is a failure path on which
the named output file is created, contradicting the claim. -/
theorem output_created_on_assembly_failure :
    oBadRead.output = some "out.sh" ∧
    run fsNoRead oBadRead = .fail [] true ∧
    (run fsNoRead oBadRead).exitCode = 1 ∧
    (run fsNoRead oBadRead).sinkOpened = true := by
  decide

/-- C2, amended: every failing invocation exits with status 1, and no
output file is created on any *validation* failure (every failure that
prints an error message happens before the output sink is opened); the
only failure path on which the named output file has already been
created/truncated is a read/encode error inside archive assembly, which
prints no message of its own. -/
theorem fail_exits_nonzero_sink_policy (fs : FS) (o : Options)
    (errs : List String) (b : Bool) (h : run fs o = .fail errs b) :
    (run fs o).exitCode = 1 ∧
    (b = true → errs = [] ∧ o.output.isSome = true) ∧
    (errs ≠ [] → b = false) := by
  refine ⟨by rw [h]; rfl, ?_, ?_⟩
  · intro hb
    unfold run runResolved at h
    split at h
    · exact RunOutcome.noConfusion h
    repeat'
      first
      | (split at h)
      | (cases h; simp_all)
      | (exact RunOutcome.noConfusion h)
  · intro hne
    unfold run runResolved at h
    split at h
    · exact RunOutcome.noConfusion h
    repeat'
      first
      | (split at h)
      | (cases h; simp_all)
      | (exact RunOutcome.noConfusion h)

/-- C9: when `--help` is given the tool prints usage and exits with
status 0 before anything else happens — the outcome is `.help` for every
filesystem and every combination of the remaining options (invalid flag
values, empty file list, missing post-extraction script included), and no
output sink is touched. -/
theorem help_short_circuits (fs : FS) (o : Options) (h : o.help = true) :
    run fs o = .help ∧
    (run fs o).exitCode = 0 ∧
    (run fs o).sinkOpened = false := by
  have hr : run fs o = .help := by
    unfold run
    rw [h]
    rfl
  exact ⟨hr, by rw [hr]; rfl, by rw [hr]; rfl⟩

/-- C9 witness: `--help` together with an otherwise-invalid invocation
(empty file list, no post-extraction script, invalid archive type) still
shows help and exits 0. -/
theorem help_short_circuits_witness :
    run fsNoRead { noOpts with help := true, type := "rar" } = .help ∧
    (run fsNoRead { noOpts with help := true, type := "rar" }).exitCode = 0 ∧
    (run fsNoRead { noOpts with help := true, type := "rar" }).sinkOpened = false :=
  help_short_circuits fsNoRead { noOpts with help := true, type := "rar" } rfl

/-- C8: an invocation without `--help` whose file list is empty fails the
first validation with the message `No files to embed specified` (and no
output sink touched); and the exit status of every run is 0 or 1 — 0
exactly on success or help, 1 exactly on every failure (validation, read
or encoding). -/
theorem empty_files_and_exit_codes (fs : FS) (o : Options) :
    (o.help = false → o.files = [] →
      run fs o = .fail ["No files to embed specified"] false) ∧
    ((run fs o).exitCode = 0 ∨ (run fs o).exitCode = 1) ∧
    (∀ errs b, run fs o = .fail errs b → (run fs o).exitCode = 1) ∧
    (∀ cfg es out, run fs o = .ok cfg es out → (run fs o).exitCode = 0) ∧
    (run fs o = .help → (run fs o).exitCode = 0) := by
  refine ⟨?_, ?_, ?_, ?_, ?_⟩
  · intro hh hf
    unfold run
    rw [hh, hf]
    rfl
  · cases hr : run fs o <;> simp [RunOutcome.exitCode]
  · intro errs b h; rw [h]; rfl
  · intro cfg es out h; rw [h]; rfl
  · intro h; rw [h]; rfl

/-- C8 witness: an invocation with no `--help` and an empty file list
fails with the expected message, exit status 1. -/
theorem empty_files_and_exit_codes_witness :
    run fsNoRead noOpts = .fail ["No files to embed specified"] false :=
  (empty_files_and_exit_codes fsNoRead noOpts).1 rfl rfl

/-- C6: the archive type defaults to `tar` when `--type` is absent, and
any value other than exactly `tar` or `zip` is a fatal configuration
error: once the earlier checks pass (no help, non-empty file list,
post-extraction script present), the tool prints
`Invalid archive type. Values tar or zip allowed` and exits with status 1
before any archive is built or any output sink is touched. -/
theorem archive_type_validation (fs : FS) (o : Options)
    (hh : o.help = false) (hf : o.files ≠ [])
    (hp : postExtractMissing o = false)
    (ht : o.type ≠ "tar") (hz : o.type ≠ "zip") :
    applyTypeDefault none = "tar" ∧
    run fs o = .fail ["Invalid archive type. Values tar or zip allowed"] false ∧
    (run fs o).exitCode = 1 ∧
    (run fs o).sinkOpened = false := by
  have hf0 : (o.files.length == 0) = false := by
    simp [List.length_eq_zero, hf]
  have htb : (o.type == "tar" || o.type == "zip") = false := by
    simp [ht, hz]
  have hr : run fs o = .fail ["Invalid archive type. Values tar or zip allowed"] false := by
    unfold run
    rw [hh, hf0, hp, htb]
    rfl
  exact ⟨rfl, hr, by rw [hr]; rfl, by rw [hr]; rfl⟩

/-- C6 witness: `--type rar` on an otherwise-complete invocation fails
with the archive-type error. -/
theorem archive_type_validation_witness :
    run fsNoRead { noOpts with files := ["a.txt"], postExtract := some "echo x", type := "rar" }
      = .fail ["Invalid archive type. Values tar or zip allowed"] false :=
  (archive_type_validation fsNoRead
    { noOpts with files := ["a.txt"], postExtract := some "echo x", type := "rar" }
    rfl (by decide) rfl (by decide) (by decide)).2.1

/-- Elimination principle for successful runs: a run that reaches
`makeSelfExtractingScript` and succeeds passed both script resolutions,
and the configuration, entry list and output sink it used are exactly the
ones built from the options. -/
theorem run_ok_elim (fs : FS) (o : Options) (cfg : ScriptConfig) (es : List Entry)
    (out : Option String) (h : run fs o = .ok cfg es out) :
    cfg.archiveFormat = o.type ∧ cfg.compressionLevel = o.compressLevel ∧
    cfg.omitLibraryHeader = o.omitHeader ∧
    (∃ pre, resolveScript fs "pre-extraction" o.preExtractFile o.preExtract = .ok pre ∧
      cfg.preExtraction = pre) ∧
    (∃ post, resolveScript fs "post-extraction" o.postExtractFile o.postExtract = .ok post ∧
      cfg.postExtraction = post) ∧
    es = entriesOf fs.cwd o ∧ out = o.output := by
  unfold run runResolved at h
  split at h
  · exact RunOutcome.noConfusion h
  split at h
  · exact RunOutcome.noConfusion h
  split at h
  · exact RunOutcome.noConfusion h
  split at h
  · exact RunOutcome.noConfusion h
  split at h
  · exact RunOutcome.noConfusion h
  split at h
  · exact RunOutcome.noConfusion h
  rename_i pre hpre
  split at h
  · exact RunOutcome.noConfusion h
  rename_i post hpost
  split at h
  · exact RunOutcome.noConfusion h
  split at h
  · cases h
    exact ⟨rfl, rfl, rfl, ⟨pre, hpre, rfl⟩, ⟨post, hpost, rfl⟩, rfl, rfl⟩
  · exact RunOutcome.noConfusion h

/-- C7: a supplied `--compress-level` passes validation exactly when it is
one of the exact integers 0..9 (any non-integral value, `NaN` included,
and any out-of-range integer fails with exit status 1 once the earlier
checks pass), an absent level passes, and on success the level is
forwarded to the assembler unchanged (`none` = format default). -/
theorem compress_level_validation :
    (∀ n : Int, validCompress (some (.int n)) = true ↔ 0 ≤ n ∧ n ≤ 9) ∧
    validCompress (some .nonInt) = false ∧
    validCompress none = true ∧
    (∀ (fs : FS) (o : Options), o.help = false → o.files ≠ [] →
      postExtractMissing o = false → (o.type = "tar" ∨ o.type = "zip") →
      validCompress o.compressLevel = false →
      run fs o = .fail ["Invalid compression level. Values 0-9 allowed"] false ∧
      (run fs o).exitCode = 1 ∧ (run fs o).sinkOpened = false) ∧
    (∀ (fs : FS) (o : Options) cfg es out, run fs o = .ok cfg es out →
      cfg.compressionLevel = o.compressLevel) := by
  refine ⟨?_, rfl, rfl, ?_, ?_⟩
  · intro n
    simp only [validCompress, validCompressLevels, List.any_cons, List.any_nil,
      jsNumEq, Bool.or_eq_true, beq_iff_eq, Bool.or_false, decide_eq_true_eq]
    omega
  · intro fs o hh hf hp ht hc
    have hf0 : (o.files.length == 0) = false := by
      simp [List.length_eq_zero, hf]
    have htb : (o.type == "tar" || o.type == "zip") = true := by
      rcases ht with h | h <;> simp [h]
    have hr : run fs o = .fail ["Invalid compression level. Values 0-9 allowed"] false := by
      unfold run
      rw [hh, hf0, hp, htb, hc]
      rfl
    exact ⟨hr, by rw [hr]; rfl, by rw [hr]; rfl⟩
  · intro fs o cfg es out h
    exact (run_ok_elim fs o cfg es out h).2.1

/-- Invocation with an out-of-range compression level. -/
def oBadLevel : Options :=
  { noOpts with
      files := ["a.txt"], postExtract := some "echo x", compressLevel := some (.int 12) }

/-- C7 witness: level 12 is rejected on an otherwise-complete invocation,
and level 3 passes the membership check. -/
theorem compress_level_validation_witness :
    run fsNoRead oBadLevel = .fail ["Invalid compression level. Values 0-9 allowed"] false ∧
    validCompress (some (.int 3)) = true :=
  ⟨(compress_level_validation.2.2.2.1 fsNoRead oBadLevel
      rfl (by decide) rfl (Or.inl rfl) (by decide)).1,
   (compress_level_validation.1 3).mpr (by decide)⟩

/-- A successful fixture: one readable input file, inline post-extraction
script, everything else defaulted. -/
def oOk : Options := { noOpts with files := ["a.txt"], postExtract := some "echo done" }

/-- Filesystem on which every read succeeds. -/
def fsAllRead : FS := { cwd := "/w", readFile := fun _ => some "data" }

/-- C4: in every successful run the entry list is exactly the input paths
mapped through entry resolution, where the entry name is the input made
relative to the resolved root when `--root` is supplied and the bare base
filename (directory components discarded) otherwise, and the stored source
path is the input resolved to an absolute path (it always starts with
`/`). -/
theorem entry_resolution (fs : FS) (o : Options) (cfg : ScriptConfig)
    (es : List Entry) (out : Option String) (h : run fs o = .ok cfg es out) :
    es = o.files.map (mkEntry fs.cwd (o.root.map (pathResolve fs.cwd))) ∧
    (∀ r p, (mkEntry fs.cwd (some r) p).filename = pathRelative fs.cwd r p) ∧
    (∀ p, (mkEntry fs.cwd none p).filename = baseOf p) ∧
    (∀ rr p, (mkEntry fs.cwd rr p).path = pathResolve fs.cwd p) ∧
    (∀ p, ∃ rest, pathResolve fs.cwd p = "/" ++ rest) :=
  ⟨(run_ok_elim fs o cfg es out h).2.2.2.2.2.1,
   fun _ _ => rfl, fun _ => rfl, fun _ _ => rfl, fun _ => ⟨_, rfl⟩⟩

/-- C4 witness: a concrete successful run resolves `a.txt` (cwd `/w`,
no root) to entry name `a.txt` with source path `/w/a.txt`. -/
theorem entry_resolution_witness :
    [({ filename := "a.txt", path := "/w/a.txt", mode := 420 } : Entry)]
      = oOk.files.map (mkEntry fsAllRead.cwd (oOk.root.map (pathResolve fsAllRead.cwd))) :=
  (entry_resolution fsAllRead oOk
    { archiveFormat := "tar", compressionLevel := none, omitLibraryHeader := none,
      preExtraction := none, postExtraction := some "echo done" }
    [{ filename := "a.txt", path := "/w/a.txt", mode := 420 }] none (by decide)).1

/-- C5: the mode assigned to an entry is a pure function of the filename's
extension and nothing else — 0o755 exactly when the extension is the
case-sensitive `.sh`, 0o644 for every other filename (`x.SH` included);
entry resolution never looks at file contents (it has no access to the
filesystem at all) and the mode does not depend on cwd or root. -/
theorem mode_by_extension :
    (∀ cwd rr p, (mkEntry cwd rr p).mode = 0o755 ∨ (mkEntry cwd rr p).mode = 0o644) ∧
    (∀ cwd rr p, (mkEntry cwd rr p).mode = 0o755 ↔ extname p = ".sh") ∧
    (∀ cwd cwd2 rr rr2 p, (mkEntry cwd rr p).mode = (mkEntry cwd2 rr2 p).mode) ∧
    (∀ cwd rr p q, extname p = extname q →
      (mkEntry cwd rr p).mode = (mkEntry cwd rr q).mode) ∧
    extname "x.SH" = ".SH" ∧
    (∀ cwd rr, (mkEntry cwd rr "x.SH").mode = 0o644) ∧
    (∀ cwd rr, (mkEntry cwd rr "x.sh").mode = 0o755) := by
  refine ⟨?_, ?_, ?_, ?_, by decide, ?_, ?_⟩
  · intro cwd rr p
    by_cases he : extname p = ".sh" <;> simp [mkEntry, he]
  · intro cwd rr p
    by_cases he : extname p = ".sh" <;> simp [mkEntry, he]
  · intro cwd cwd2 rr rr2 p
    simp [mkEntry]
  · intro cwd rr p q hpq
    simp [mkEntry, hpq]
  · intro cwd rr
    show (if extname "x.SH" = ".sh" then 0o755 else 0o644) = 0o644
    decide
  · intro cwd rr
    show (if extname "x.sh" = ".sh" then 0o755 else 0o644) = 0o755
    decide

/-- C5 witness: with equal extensions the modes agree, instantiated at
`dir/a.sh` and `b.sh`. -/
theorem mode_by_extension_witness :
    (mkEntry "/w" none "dir/a.sh").mode = (mkEntry "/w" none "b.sh").mode :=
  mode_by_extension.2.2.2.1 "/w" none "dir/a.sh" "b.sh" (by decide)

/-! ## Exactness of the duplicate report -/

/-- First-match lookup in the insertion-ordered map. -/
def listLookup : List (String × List String) → String → Option (List String)
  | [], _ => none
  | (k, vs) :: rest, q => if k = q then some vs else listLookup rest q

/-- The resolved source paths of all entries whose entry name is `q`, in
input order. -/
def pathsOf (es : List Entry) (q : String) : List String :=
  (es.filter (fun e => e.filename = q)).map Entry.path

/-- The keys of the map, in insertion order. -/
def keysOf (m : List (String × List String)) : List String :=
  m.map Prod.fst

theorem listLookup_insertEntry (m : List (String × List String)) (k v q : String) :
    listLookup (insertEntry m k v) q =
      if k = q then some ((listLookup m q).getD [] ++ [v]) else listLookup m q := by
  induction m with
  | nil =>
    by_cases h : k = q <;> simp [insertEntry, listLookup, h]
  | cons kv rest ih =>
    obtain ⟨k', vs⟩ := kv
    by_cases h1 : k' = k
    · subst h1
      by_cases h2 : k' = q <;> simp [insertEntry, listLookup, h2]
    · by_cases h2 : k' = q
      · subst h2
        have hkq : ¬ k = k' := fun h => h1 h.symm
        simp [insertEntry, h1, listLookup, hkq]
      · simp [insertEntry, h1, listLookup, h2, ih]

/-- Combination of an accumulated value with the paths contributed by the
remaining entries. -/
def mergePaths : Option (List String) → List String → Option (List String)
  | some vs, ps => some (vs ++ ps)
  | none, ps => if ps.isEmpty then none else some ps

theorem pathsOf_cons (e : Entry) (es : List Entry) (q : String) :
    pathsOf (e :: es) q =
      (if e.filename = q then [e.path] else []) ++ pathsOf es q := by
  by_cases h : e.filename = q <;> simp [pathsOf, h]

theorem listLookup_entryFold (es : List Entry) :
    ∀ (m : List (String × List String)) (q : String),
      listLookup (es.foldl (fun m e => insertEntry m e.filename e.path) m) q
        = mergePaths (listLookup m q) (pathsOf es q) := by
  induction es with
  | nil =>
    intro m q
    cases h : listLookup m q <;> simp [pathsOf, mergePaths, h]
  | cons e es ih =>
    intro m q
    simp only [List.foldl_cons, ih, listLookup_insertEntry, pathsOf_cons]
    by_cases h : e.filename = q
    · subst h
      rw [if_pos rfl]
      cases hm : listLookup m e.filename <;>
        simp [mergePaths, hm, List.append_assoc]
    · simp [h]

theorem listLookup_entryCount (es : List Entry) (q : String) :
    listLookup (entryCount es) q =
      if (pathsOf es q).isEmpty then none else some (pathsOf es q) := by
  have h := listLookup_entryFold es [] q
  simpa [entryCount, listLookup, mergePaths] using h

theorem keysOf_insertEntry (m : List (String × List String)) (k v : String) :
    keysOf (insertEntry m k v) =
      if k ∈ keysOf m then keysOf m else keysOf m ++ [k] := by
  induction m with
  | nil => simp [insertEntry, keysOf]
  | cons kv rest ih =>
    obtain ⟨k', vs⟩ := kv
    by_cases h : k' = k
    · subst h
      simp [insertEntry, keysOf]
    · have hne : ¬ k = k' := fun hk => h hk.symm
      simp only [keysOf] at ih
      simp only [insertEntry, h, if_false, keysOf, List.map_cons, ih]
      by_cases hm : k ∈ List.map Prod.fst rest <;>
        simp [hm, hne, List.mem_cons, List.cons_append]

theorem nodup_keysOf_insertEntry (m : List (String × List String)) (k v : String)
    (h : (keysOf m).Nodup) : (keysOf (insertEntry m k v)).Nodup := by
  rw [keysOf_insertEntry]
  by_cases hm : k ∈ keysOf m
  · simpa [hm] using h
  · simp only [hm, if_false]
    simpa [List.nodup_append, hm] using h

theorem nodup_keysOf_entryFold (es : List Entry) :
    ∀ m : List (String × List String), (keysOf m).Nodup →
      (keysOf (es.foldl (fun m e => insertEntry m e.filename e.path) m)).Nodup := by
  induction es with
  | nil => intro m h; simpa using h
  | cons e es ih =>
    intro m h
    exact ih _ (nodup_keysOf_insertEntry m e.filename e.path h)

theorem nodup_keysOf_entryCount (es : List Entry) :
    (keysOf (entryCount es)).Nodup :=
  nodup_keysOf_entryFold es [] (by simp [keysOf])

theorem listLookup_eq_none_of_not_mem (m : List (String × List String)) (q : String)
    (h : q ∉ keysOf m) : listLookup m q = none := by
  induction m with
  | nil => rfl
  | cons kv rest ih =>
    obtain ⟨k, vs⟩ := kv
    simp only [keysOf, List.map_cons, List.mem_cons, not_or] at h
    have hk : ¬ k = q := fun hk => h.1 hk.symm
    simpa [listLookup, hk] using ih (by simpa [keysOf] using h.2)

theorem listLookup_mem (m : List (String × List String)) (q : String) (vs : List String)
    (h : listLookup m q = some vs) : (q, vs) ∈ m := by
  induction m with
  | nil => exact absurd h (by simp [listLookup])
  | cons kv rest ih =>
    obtain ⟨k, vs'⟩ := kv
    by_cases hk : k = q
    · subst hk
      rw [show listLookup ((k, vs') :: rest) k = some vs' from by simp [listLookup]] at h
      cases h
      exact List.mem_cons_self _ _
    · simp only [listLookup, if_neg hk] at h
      exact List.mem_cons_of_mem _ (ih h)

theorem listLookup_filter (p : String × List String → Bool)
    (m : List (String × List String)) (q : String) (hnd : (keysOf m).Nodup) :
    listLookup (m.filter p) q =
      match listLookup m q with
      | none => none
      | some vs => if p (q, vs) then some vs else none := by
  induction m with
  | nil => simp [listLookup]
  | cons kv rest ih =>
    obtain ⟨k, vs⟩ := kv
    simp only [keysOf, List.map_cons, List.nodup_cons] at hnd
    have ihr := ih (by simpa [keysOf] using hnd.2)
    by_cases hk : k = q
    · subst hk
      have hnone : listLookup rest k = none :=
        listLookup_eq_none_of_not_mem rest k (by simpa [keysOf] using hnd.1)
      by_cases hp : p (k, vs) <;>
        simp [List.filter_cons, hp, listLookup, ihr, hnone]
    · by_cases hp : p (k, vs) <;>
        simp [List.filter_cons, hp, listLookup, hk, ihr]

/-- Total number of source paths stored in the map. -/
def sumVals (m : List (String × List String)) : Nat :=
  (m.map (fun kv => kv.2.length)).sum

theorem sumVals_insertEntry (m : List (String × List String)) (k v : String) :
    sumVals (insertEntry m k v) = sumVals m + 1 := by
  induction m with
  | nil => simp [insertEntry, sumVals]
  | cons kv rest ih =>
    obtain ⟨k', vs⟩ := kv
    by_cases h : k' = k <;>
      simp [insertEntry, h, sumVals] at ih ⊢ <;> omega

theorem sumVals_entryFold (es : List Entry) :
    ∀ m : List (String × List String),
      sumVals (es.foldl (fun m e => insertEntry m e.filename e.path) m)
        = sumVals m + es.length := by
  induction es with
  | nil => intro m; simp
  | cons e es ih =>
    intro m
    simp only [List.foldl_cons, ih, sumVals_insertEntry, List.length_cons]
    omega

theorem sumVals_entryCount (es : List Entry) : sumVals (entryCount es) = es.length := by
  have h := sumVals_entryFold es []
  simpa [entryCount, sumVals] using h

theorem vals_ne_nil_insertEntry (m : List (String × List String)) (k v : String)
    (h : ∀ kv ∈ m, kv.2 ≠ []) : ∀ kv ∈ insertEntry m k v, kv.2 ≠ [] := by
  induction m with
  | nil =>
    intro kv hkv
    simp only [insertEntry, List.mem_singleton] at hkv
    subst hkv
    simp
  | cons kv' rest ih =>
    obtain ⟨k', vs⟩ := kv'
    intro kv hkv
    by_cases hk : k' = k
    · subst hk
      rw [show insertEntry ((k', vs) :: rest) k' v = (k', vs ++ [v]) :: rest from by
        simp [insertEntry]] at hkv
      rcases List.mem_cons.mp hkv with h1 | h1
      · subst h1; simp
      · exact h _ (List.mem_cons_of_mem _ h1)
    · simp only [insertEntry, if_neg hk] at hkv
      rcases List.mem_cons.mp hkv with h1 | h1
      · subst h1; exact h _ (List.mem_cons_self _ _)
      · exact ih (fun kv2 hm => h _ (List.mem_cons_of_mem _ hm)) _ h1

theorem vals_ne_nil_entryFold (es : List Entry) :
    ∀ m : List (String × List String), (∀ kv ∈ m, kv.2 ≠ []) →
      ∀ kv ∈ es.foldl (fun m e => insertEntry m e.filename e.path) m, kv.2 ≠ [] := by
  induction es with
  | nil => intro m h; simpa using h
  | cons e es ih =>
    intro m h
    exact ih _ (vals_ne_nil_insertEntry m e.filename e.path h)

theorem vals_ne_nil_entryCount (es : List Entry) :
    ∀ kv ∈ entryCount es, kv.2 ≠ [] :=
  vals_ne_nil_entryFold es [] (by simp)

theorem length_le_sumVals (m : List (String × List String))
    (h : ∀ kv ∈ m, kv.2 ≠ []) : m.length ≤ sumVals m := by
  induction m with
  | nil => simp [sumVals]
  | cons kv rest ih =>
    have h1 : 0 < kv.2.length :=
      List.length_pos.mpr (h kv (List.mem_cons_self _ _))
    have h2 := ih (fun kv2 hm => h _ (List.mem_cons_of_mem _ hm))
    simp only [List.length_cons, sumVals, List.map_cons, List.sum_cons]
    simp only [sumVals] at h2
    omega

theorem length_lt_sumVals (m : List (String × List String))
    (h : ∀ kv ∈ m, kv.2 ≠ []) (q : String) (vs : List String)
    (hmem : (q, vs) ∈ m) (h2 : 2 ≤ vs.length) : m.length < sumVals m := by
  induction m with
  | nil => cases hmem
  | cons kv rest ih =>
    have hrest : ∀ kv2 ∈ rest, kv2.2 ≠ [] := fun kv2 hm => h _ (List.mem_cons_of_mem _ hm)
    rcases List.mem_cons.mp hmem with h1 | h1
    · subst h1
      have := length_le_sumVals rest hrest
      simp only [List.length_cons, sumVals, List.map_cons, List.sum_cons]
      simp only [sumVals] at this
      omega
    · have hlt := ih hrest h1
      have hpos : 0 < kv.2.length :=
        List.length_pos.mpr (h kv (List.mem_cons_self _ _))
      simp only [List.length_cons, sumVals, List.map_cons, List.sum_cons]
      simp only [sumVals] at hlt
      omega

theorem pathsOf_length_eq_count (es : List Entry) (q : String) :
    (pathsOf es q).length = (es.map Entry.filename).count q := by
  induction es with
  | nil => simp [pathsOf]
  | cons e es ih =>
    by_cases h : e.filename = q <;>
      simp [pathsOf_cons, h, ih, List.count_cons]

/-- A duplicated entry name makes the map strictly smaller than the entry
list, which is exactly the `entryCount.size != files.length` test. -/
theorem dup_names_entryCount_length (es : List Entry)
    (h : ¬ (es.map Entry.filename).Nodup) :
    (entryCount es).length ≠ es.length := by
  have hex : ∃ q, 2 ≤ (es.map Entry.filename).count q := by
    by_contra hc
    push_neg at hc
    exact h (List.nodup_iff_count_le_one.mpr fun a => by have := hc a; omega)
  obtain ⟨q, hq⟩ := hex
  have hlen : 2 ≤ (pathsOf es q).length := by
    rw [pathsOf_length_eq_count]; exact hq
  have hne : ¬ (pathsOf es q).isEmpty = true := by
    cases hps : pathsOf es q
    · rw [hps] at hlen; simp at hlen
    · simp [hps]
  have hlook : listLookup (entryCount es) q = some (pathsOf es q) := by
    rw [listLookup_entryCount]
    simp [hne]
  have hmem := listLookup_mem _ _ _ hlook
  have hlt := length_lt_sumVals (entryCount es) (vals_ne_nil_entryCount es) q
    (pathsOf es q) hmem hlen
  rw [sumVals_entryCount] at hlt
  omega

/-- The reduction of a run that passes every validation and both script
reads to its resolved tail. -/
theorem run_eq_runResolved (fs : FS) (o : Options)
    (hh : o.help = false) (hf0 : (o.files.length == 0) = false)
    (hp : postExtractMissing o = false)
    (htb : (o.type == "tar" || o.type == "zip") = true)
    (hc : validCompress o.compressLevel = true) (pre post : Option String)
    (hpre : resolveScript fs "pre-extraction" o.preExtractFile o.preExtract = .ok pre)
    (hpost : resolveScript fs "post-extraction" o.postExtractFile o.postExtract = .ok post) :
    run fs o = runResolved fs o pre post := by
  unfold run
  rw [hh, hf0, hp, htb, hc, hpre, hpost]
  rfl

/-- The lines printed for one colliding entry: the header naming the entry
and its multiplicity, then one `  From` line per source path. -/
def renderDup (kv : String × List String) : List String :=
  ("Archive would contain path " ++ kv.1 ++ " " ++ toString kv.2.length ++ " times")
    :: kv.2.map (fun s => "  From " ++ s)

/-- The duplicate report consists of exactly the rendered collided
entries: entries with a single source path contribute nothing. -/
theorem dupErrors_eq_render_filter (m : List (String × List String)) :
    dupErrors m = ((m.filter (fun kv => kv.2.length != 1)).map renderDup).flatten := by
  induction m with
  | nil => simp [dupErrors]
  | cons kv rest ih =>
    obtain ⟨k, vs⟩ := kv
    by_cases h : vs.length = 1
    · have hb : (vs.length != 1) = false := by simp [h]
      simp [dupErrors, List.filter_cons, hb, h, ih]
    · have hb : (vs.length != 1) = true := by simp [bne_iff_ne, h]
      simp [dupErrors, List.filter_cons, hb, h, ih, renderDup]

/-- The filtered collision map is exact: looking up any name gives
precisely the full list of source paths that mapped to it when that list
has two or more elements, and nothing otherwise. -/
theorem collision_report_exact (es : List Entry) (q : String) :
    listLookup ((entryCount es).filter (fun kv => kv.2.length != 1)) q
      = if 2 ≤ (pathsOf es q).length then some (pathsOf es q) else none := by
  rw [listLookup_filter _ _ _ (nodup_keysOf_entryCount es), listLookup_entryCount]
  by_cases h : (pathsOf es q).isEmpty
  · have hnil : pathsOf es q = [] := by
      cases hps : pathsOf es q
      · rfl
      · rw [hps] at h; simp at h
    simp [h, hnil]
  · have hne : pathsOf es q ≠ [] := by
      intro hq; rw [hq] at h; simp at h
    have hpos : 1 ≤ (pathsOf es q).length := List.length_pos.mpr hne
    by_cases h2 : 2 ≤ (pathsOf es q).length
    · have hb : ((pathsOf es q).length != 1) = true := by
        simp only [bne_iff_ne, ne_eq]
        omega
      simp [h, h2, hb]
    · have hlen1 : (pathsOf es q).length = 1 := by omega
      have hb : ((pathsOf es q).length != 1) = false := by simp [hlen1]
      simp [h, h2, hb]

/-- C3: whenever two or more input paths map to the same entry name
(and the earlier validations pass, so the duplicate check is reached), the
tool fails before any output is produced — exit status 1, output sink
untouched — printing `Archive contains duplicate files` followed by the
per-collision report; and that report is exact: it consists of precisely
the collided entries, each carrying precisely the list of resolved source
paths that produced the colliding name, while names produced by a single
path are not reported. -/
theorem duplicate_entries_rejected (fs : FS) (o : Options)
    (hh : o.help = false) (hf : o.files ≠ [])
    (hp : postExtractMissing o = false)
    (ht : o.type = "tar" ∨ o.type = "zip")
    (hc : validCompress o.compressLevel = true)
    (pre post : Option String)
    (hpre : resolveScript fs "pre-extraction" o.preExtractFile o.preExtract = .ok pre)
    (hpost : resolveScript fs "post-extraction" o.postExtractFile o.postExtract = .ok post)
    (hdup : ¬ ((entriesOf fs.cwd o).map Entry.filename).Nodup) :
    run fs o = .fail ("Archive contains duplicate files"
        :: dupErrors (entryCount (entriesOf fs.cwd o))) false ∧
    (run fs o).exitCode = 1 ∧
    (run fs o).sinkOpened = false ∧
    (∀ q, listLookup ((entryCount (entriesOf fs.cwd o)).filter
            (fun kv => kv.2.length != 1)) q
        = if 2 ≤ (pathsOf (entriesOf fs.cwd o) q).length
          then some (pathsOf (entriesOf fs.cwd o) q) else none) ∧
    dupErrors (entryCount (entriesOf fs.cwd o))
      = (((entryCount (entriesOf fs.cwd o)).filter
            (fun kv => kv.2.length != 1)).map renderDup).flatten := by
  have hf0 : (o.files.length == 0) = false := by simp [List.length_eq_zero, hf]
  have htb : (o.type == "tar" || o.type == "zip") = true := by
    rcases ht with h | h <;> simp [h]
  have hlen := dup_names_entryCount_length _ hdup
  have hlenb : ((entryCount (entriesOf fs.cwd o)).length
      != (entriesOf fs.cwd o).length) = true := by
    simpa [bne_iff_ne] using hlen
  have hr : run fs o = .fail ("Archive contains duplicate files"
      :: dupErrors (entryCount (entriesOf fs.cwd o))) false := by
    rw [run_eq_runResolved fs o hh hf0 hp htb hc pre post hpre hpost]
    unfold runResolved
    rw [if_pos hlenb]
  exact ⟨hr, by rw [hr]; rfl, by rw [hr]; rfl,
    fun q => collision_report_exact _ q,
    dupErrors_eq_render_filter _⟩

/-- Two input paths that flatten to the same basename. -/
def oDup : Options :=
  { noOpts with files := ["a/x.txt", "b/x.txt"], postExtract := some "echo done" }

/-- C3 witness: `a/x.txt` and `b/x.txt` (no root) both flatten to
`x.txt`; the run fails with the duplicate report. -/
theorem duplicate_entries_rejected_witness :
    run fsAllRead oDup = .fail ("Archive contains duplicate files"
        :: dupErrors (entryCount (entriesOf fsAllRead.cwd oDup))) false :=
  (duplicate_entries_rejected fsAllRead oDup rfl (by decide) rfl (Or.inl rfl) rfl
    none (some "echo done") rfl rfl (by decide)).1

/-! ## Inputs outside the root -/

theorem commonLen_le (f : List String) : ∀ t : List String, commonLen f t ≤ f.length := by
  induction f with
  | nil => intro t; cases t <;> simp [commonLen]
  | cons a as ih =>
    intro t
    cases t with
    | nil => simp [commonLen]
    | cons b bs =>
      by_cases h : a = b
      · simpa [commonLen, h] using Nat.succ_le_succ (ih bs)
      · simp [commonLen, h]

theorem isPrefixOf_iff_commonLen (f : List String) :
    ∀ t : List String, f.isPrefixOf t = true ↔ commonLen f t = f.length := by
  induction f with
  | nil => intro t; cases t <;> simp [List.isPrefixOf, commonLen]
  | cons a as ih =>
    intro t
    cases t with
    | nil => simp [List.isPrefixOf, commonLen]
    | cons b bs =>
      by_cases h : a = b
      · simp [List.isPrefixOf, commonLen, h, ih bs]
      · simp [List.isPrefixOf, commonLen, h]

/-- When the root's segments are not a prefix of the input's segments, the
relative segment list starts with a `..` component. -/
theorem relSegs_dotdot (f t : List String) (h : f.isPrefixOf t = false) :
    ∃ rest, relSegs f t = ".." :: rest := by
  have hne : commonLen f t ≠ f.length := by
    intro he
    rw [(isPrefixOf_iff_commonLen f t).mpr he] at h
    cases h
  have hle := commonLen_le f t
  obtain ⟨k, hk⟩ : ∃ k, f.length - commonLen f t = k + 1 :=
    ⟨f.length - commonLen f t - 1, by omega⟩
  refine ⟨List.replicate k ".." ++ t.drop (commonLen f t), ?_⟩
  rw [relSegs, hk, List.replicate_succ, List.cons_append]

theorem joinSegs_dotdot_take (rest : List String) :
    (joinSegs (".." :: rest)).data.take 2 = ['.', '.'] := by
  cases rest with
  | nil => decide
  | cons a l => rfl

/-- C10: entry resolution never checks that an input lies under the
supplied root — resolution is total (one entry per input, no error), and
for any input whose resolved segments are not an extension of the resolved
root's segments the computed entry name climbs out of the root: its
segment list starts with a `..` component, so the name itself starts with
the two characters `..`. -/
theorem root_never_enforced (cwd root p : String)
    (h : (resolveSegs cwd (pathResolve cwd root)).isPrefixOf (resolveSegs cwd p) = false) :
    (∃ rest, (mkEntry cwd (some (pathResolve cwd root)) p).filename
        = joinSegs (".." :: rest)) ∧
    ((mkEntry cwd (some (pathResolve cwd root)) p).filename).data.take 2 = ['.', '.'] ∧
    (∀ (rr : Option String) (files : List String),
      (files.map (mkEntry cwd rr)).length = files.length) := by
  obtain ⟨rest, hrest⟩ := relSegs_dotdot _ _ h
  have hname : (mkEntry cwd (some (pathResolve cwd root)) p).filename
      = joinSegs (".." :: rest) := by
    show pathRelative cwd (pathResolve cwd root) p = _
    rw [pathRelative, hrest]
  exact ⟨⟨rest, hname⟩, by rw [hname]; exact joinSegs_dotdot_take rest,
    fun rr files => by simp⟩

/-- C10 witness: cwd `/w`, root `sub` (resolved to `/w/sub`), input
`x.txt` (resolved to `/w/x.txt`, outside the root) resolves without error
to an entry name starting with `..`. -/
theorem root_never_enforced_witness :
    ((mkEntry "/w" (some (pathResolve "/w" "sub")) "x.txt").filename).data.take 2
      = ['.', '.'] :=
  (root_never_enforced "/w" "sub" "x.txt" (by decide)).2.1

/-- C2 witness for the amended statement, instantiated at a validation
failure (empty file list): exit status 1 and the sink-opened flag forced
to `false` by the nonempty error report. -/
theorem fail_exits_nonzero_sink_policy_witness :
    (run fsNoRead noOpts).exitCode = 1 ∧
    (false = true →
      ["No files to embed specified"] = ([] : List String) ∧
      noOpts.output.isSome = true) ∧
    (["No files to embed specified"] ≠ ([] : List String) → false = false) :=
  fail_exits_nonzero_sink_policy fsNoRead noOpts
    ["No files to embed specified"] false (by decide)
